import Mathlib

/-!
Verification development for the YourFlix catalog lookup service
(`catalog_lookup_service.py`).

The service is a three-stage pipeline: a Locator (`search_lddb_catalog_number`)
that finds an LDDB page URL via a Google search, an Extractor
(`scrape_lddb_metadata`) that parses the LDDB page into a metadata record, and
an Enricher (`enhance_with_tmdb`) that supplements the record from the TMDb
API; a Flask handler (`lookup_catalog`) orchestrates the three stages.

The shallow embedding below models the Python functions over explicit page /
response abstractions.  Python strings are modelled as Lean `String` / lists of
characters; `dict.get` with defaults, Python truthiness, exceptions
(`Except`), and the concrete regular expressions used by the source are all
modelled explicitly.  Python `int(...)` is modelled for optionally signed
decimal strings with surrounding whitespace (the source never feeds it
underscore-separated literals).
-/

namespace Yourflix

/-- Python whitespace for `str.strip` and the regex class `\s`
(ASCII fragment: space, tab, newline, carriage return, vertical tab,
form feed). -/
def pySpace (c : Char) : Bool :=
  c = ' ' || c = '\t' || c = '\n' || c = '\r' || c = '\x0b' || c = '\x0c'

/-- Drop trailing Python whitespace. -/
def dropEndWs (l : List Char) : List Char :=
  (l.reverse.dropWhile pySpace).reverse

/-- Model of Python `str.strip()` on a character list. -/
def stripList (l : List Char) : List Char :=
  dropEndWs (l.dropWhile pySpace)

/-- Model of Python `str.strip()`. -/
def pyStrip (s : String) : String :=
  (stripList s.toList).asString

/-- Model of Python `str.lower()` (ASCII fragment, as used by the source). -/
def strLower (s : String) : String :=
  (s.toList.map Char.toLower).asString

/-- `leadsWith pat l` models Python `l.startswith(pat)`. -/
def leadsWith : List Char → List Char → Bool
  | [], _ => true
  | _ :: _, [] => false
  | a :: as, b :: bs => a = b && leadsWith as bs

/-- `containsL pat l` models Python `pat in l` (substring containment). -/
def containsL (pat : List Char) : List Char → Bool
  | [] => pat.isEmpty
  | c :: rest => leadsWith pat (c :: rest) || containsL pat rest

/-- Model of Python `needle in hay` on strings. -/
def subIn (needle hay : String) : Bool :=
  containsL needle.toList hay.toList

/-- The part of `l` before the first occurrence of the (non-empty) separator
`sep`; the whole list when `sep` does not occur.  Models Python
`l.split(sep)[0]`. -/
def beforeFirst (sep : List Char) : List Char → List Char
  | [] => []
  | c :: rest =>
    if leadsWith sep (c :: rest) then []
    else c :: beforeFirst sep rest

/-- Fuel-indexed worker for `removeOcc`. -/
def removeOccAux : Nat → List Char → List Char → List Char
  | 0, _, l => l
  | _ + 1, _, [] => []
  | fuel + 1, old, c :: rest =>
    if old ≠ [] ∧ leadsWith old (c :: rest) then
      removeOccAux fuel old ((c :: rest).drop old.length)
    else
      c :: removeOccAux fuel old rest

/-- Model of Python `l.replace(old, "")` for non-empty `old`: delete every
(non-overlapping, left-to-right) occurrence of `old` from `l`. -/
def removeOcc (old l : List Char) : List Char :=
  removeOccAux l.length old l

/-- Hexadecimal digit value, as used by percent-decoding. -/
def hexVal (c : Char) : Option Nat :=
  if '0' ≤ c ∧ c ≤ '9' then some (c.toNat - '0'.toNat)
  else if 'a' ≤ c ∧ c ≤ 'f' then some (c.toNat - 'a'.toNat + 10)
  else if 'A' ≤ c ∧ c ≤ 'F' then some (c.toNat - 'A'.toNat + 10)
  else none

/-- Model of Python `urllib.parse.unquote` (ASCII fragment): each valid
`%XX` escape is decoded to the character with code `XX`; invalid escapes are
left untouched. -/
def pctDec : List Char → List Char
  | '%' :: a :: b :: rest =>
    match hexVal a, hexVal b with
    | some x, some y => Char.ofNat (16 * x + y) :: pctDec rest
    | _, _ => '%' :: pctDec (a :: b :: rest)
  | c :: rest => c :: pctDec rest
  | [] => []

/-- Numeric value of a non-empty list of decimal digits. -/
def digitsVal : List Char → Option Nat
  | [] => none
  | l =>
    if l.all Char.isDigit then
      some (l.foldl (fun acc c => 10 * acc + (c.toNat - '0'.toNat)) 0)
    else none

/-- Model of Python `int(s)` on a string: optional surrounding whitespace,
optional sign, then decimal digits; `none` when `int` would raise
`ValueError`. -/
def pyIntList (l : List Char) : Option Int :=
  match stripList l with
  | '+' :: rest => (digitsVal rest).map Int.ofNat
  | '-' :: rest => (digitsVal rest).map (fun n => -(n : Int))
  | rest => (digitsVal rest).map Int.ofNat

/-- Worker for `pySplit`: split a character list at every occurrence of the
separator character. -/
def splitChar (c : Char) : List Char → List (List Char)
  | [] => [[]]
  | x :: rest =>
    if x = c then [] :: splitChar c rest
    else
      match splitChar c rest with
      | h :: t => (x :: h) :: t
      | [] => [[x]]

/-- Model of Python `s.split(sep)` for a single-character separator (the
source only splits on `","`). -/
def pySplit (c : Char) (s : String) : List String :=
  (splitChar c s.toList).map List.asString

/-- First maximal run of decimal digits in `l`, as a `Nat`; models
`re.search(r"(\d+)", l)` followed by `int` on the captured group. -/
def firstNat : List Char → Option Nat
  | [] => none
  | c :: rest =>
    if c.isDigit then
      digitsVal (c :: rest.takeWhile Char.isDigit)
    else firstNat rest

/-- Model of `re.search(r"\((\d{4})\)", l)` followed by `int` on the captured
group: the leftmost occurrence of a parenthesised 4-digit number. -/
def findParenYear : List Char → Option Nat
  | '(' :: a :: b :: c :: d :: ')' :: rest =>
    if a.isDigit && b.isDigit && c.isDigit && d.isDigit then
      digitsVal [a, b, c, d]
    else findParenYear (a :: b :: c :: d :: ')' :: rest)
  | _ :: rest => findParenYear rest
  | [] => none

/-- Does `l` consist of whitespace followed by an opening bracket?  This is
`re` matching `\s*\[` against a prefix of `l`. -/
def wsThen : List Char → Bool
  | [] => false
  | c :: rest =>
    if c = '[' then true
    else if pySpace c then wsThen rest
    else false

/-- Model of `re.match(r"(.+?)\s*\[", l)`: the captured group of the lazy
match, when the pattern matches at the start of `l`.  The group is the
shortest non-empty newline-free prefix that is followed by optional
whitespace and an opening bracket. -/
def reBracketGroup : List Char → Option (List Char)
  | [] => none
  | c :: rest =>
    if c = '\n' then none
    else if wsThen rest then some [c]
    else (reBracketGroup rest).map (c :: ·)

/-! ## Data model -/

/-- Causes an outbound HTTP fetch can fail with; the source swallows all of
them uniformly inside `try:`/`except Exception`. -/
inductive FetchErr where
  | network
  | badStatus
  | parseFail
deriving DecidableEq, Repr

/-- The metadata record built by `scrape_lddb_metadata` (its `metadata`
dict). -/
structure Metadata where
  title : String
  year : Option Nat
  runtime : Option Nat
  format : String
  genres : List String
  coverUrl : Option String
  director : Option String
  cast : List String
  description : Option String
  catalogNumber : Option String
  sourceUrl : String
deriving DecidableEq, Repr

/-- An `img` element of the scraped page: its `src` and `width` attributes
(absent attributes are `none`). -/
structure Img where
  src : Option String
  width : Option String
deriving DecidableEq, Repr

/-- Abstraction of the parsed LDDB page (`BeautifulSoup` document) consumed by
`scrape_lddb_metadata`, holding exactly the document features the source
inspects in document order. -/
structure Page where
  /-- `.text` of the `title` element, when one exists. -/
  titleText : Option String
  /-- `.text` of the first `h1` element, when one exists. -/
  h1Text : Option String
  /-- `str(soup)`: the whole document text, searched for `(dddd)`. -/
  fullText : String
  /-- The `img` elements, in document order. -/
  imgs : List Img
  /-- Each `dt` element's text together with the text of its next `dd`
  sibling, when one exists; in document order. -/
  dlPairs : List (String × Option String)
  /-- Texts of the anchors whose `href` contains `/person/`, in document
  order. -/
  personAnchors : List String
  /-- The `div` elements: `class` attribute (absent is `none`) and text. -/
  descDivs : List (Option String × String)
  /-- The `.string` of each `p` element (`none` when the element has no
  single string child), in document order. -/
  pStrings : List (Option String)
deriving DecidableEq, Repr

/-! ## Locator: `search_lddb_catalog_number` -/

/-- The per-anchor normalisation inside the Locator's scanning loop
(`catalog_lookup_service.py` lines 33-46): an anchor is considered when its
`href` contains both `lddb.com` and `/laserdisc/`; a Google-redirect href
(`/url?q=...`) is cut at the first `&`, has every occurrence of `/url?q=`
removed, and is percent-decoded; a fully-qualified `https://www.lddb.com`
href is kept as-is; anything else is skipped (`none`). -/
def cleanHref (href : String) : Option String :=
  if subIn "lddb.com" href && subIn "/laserdisc/" href then
    if leadsWith "/url?q=".toList href.toList then
      some (pctDec (removeOcc "/url?q=".toList
        (beforeFirst "&".toList href.toList))).asString
    else if leadsWith "https://www.lddb.com".toList href.toList then
      some href
    else none
  else none

/-- First anchor in document order that the scanning loop accepts. -/
def firstHit : List String → Option String
  | [] => none
  | h :: t =>
    match cleanHref h with
    | some u => some u
    | none => firstHit t

/-- Model of `search_lddb_catalog_number`: the fetched Google results page is
either a failure (any cause) or the list of anchor `href`s in document order.
Every failure, and a page with no matching anchor, yields `none`
("not found"). -/
def search_lddb_catalog_number : Except FetchErr (List String) → Option String
  | Except.error _ => none
  | Except.ok hrefs => firstHit hrefs

/-! ## Extractor: `scrape_lddb_metadata` -/

/-- The title-extraction branch driven by the title element's text alone
(`scrape_lddb_metadata` lines 83-90): strip, cut at the lazy regex
`(.+?)\s*\[` when it matches, else take the segment before the first
`" - "`. -/
def titleFromTitleText (tt : String) : String :=
  let t := stripList tt.toList
  match reBracketGroup t with
  | some g => (stripList g).asString
  | none => (stripList (beforeFirst " - ".toList t)).asString

/-- Title extraction (`scrape_lddb_metadata` lines 82-95): the title-element
branch, then the fall back to the stripped `h1` text when the title is still
the sentinel. -/
def extractTitle (titleText h1Text : Option String) : String :=
  let t1 :=
    match titleText with
    | some tt => titleFromTitleText tt
    | none => "Unknown Title"
  match h1Text with
  | some h => if t1 = "Unknown Title" then pyStrip h else t1
  | none => t1

/-- Does an `img` element's `src` attribute mention `cover` or `poster`
(case-insensitively)?  Models the `src` lambda of line 103. -/
def srcCoverish (i : Img) : Bool :=
  match i.src with
  | some s => subIn "cover" (strLower s) || subIn "poster" (strLower s)
  | none => false

/-- The width-based fallback scan of line 106: the first `img` whose `width`
attribute parses to an integer greater than 100; an `img` whose `width`
attribute is a truthy non-integer string makes `int(x)` raise, aborting the
whole extraction (`Except.error`). -/
def widthScan : List Img → Except Unit (Option Img)
  | [] => Except.ok none
  | i :: rest =>
    match i.width with
    | none => widthScan rest
    | some w =>
      if w = "" then widthScan rest
      else
        match pyIntList w.toList with
        | none => Except.error ()
        | some n => if 100 < n then Except.ok (some i) else widthScan rest

/-- Cover-image selection (lines 103-106): prefer the first `img` whose `src`
mentions `cover`/`poster`; otherwise, when some `img` carries a `width`
attribute, run the width-based fallback scan (which can raise). -/
def coverScan (imgs : List Img) : Except Unit (Option Img) :=
  match imgs.find? srcCoverish with
  | some i => Except.ok (some i)
  | none =>
    if imgs.any (fun i => i.width.isSome) then widthScan imgs
    else Except.ok none

/-- Cover URL construction (lines 108-113): a root-relative `src` is prefixed
with the site root, an absolute `http...` `src` is kept, anything else leaves
the cover URL unset. -/
def coverUrlOf (i : Img) : Option String :=
  let src := i.src.getD ""
  if leadsWith "/".toList src.toList then some ("https://www.lddb.com" ++ src)
  else if leadsWith "http".toList src.toList then some src
  else none

/-- One step of the `dt`/`dd` loop (lines 116-131): an if/elif chain over the
lower-cased stripped term, assigning the field of the first keyword group the
term matches. -/
def applyDlPair (md : Metadata) (pr : String × Option String) : Metadata :=
  match pr.2 with
  | none => md
  | some ddText =>
    let label := strLower (pyStrip pr.1)
    let value := pyStrip ddText
    if subIn "director" label then { md with director := some value }
    else if subIn "genre" label || subIn "category" label then
      { md with genres := (pySplit ',' value).map pyStrip }
    else if subIn "runtime" label || subIn "duration" label then
      match firstNat value.toList with
      | some n => { md with runtime := some n }
      | none => md
    else if subIn "catalog" label || subIn "number" label then
      { md with catalogNumber := some value }
    else md

/-- The description element chosen by lines 139-141: the first `div` whose
`class` attribute mentions `description` (case-insensitively); else the first
`p` whose string is truthy and longer than 50 characters. -/
def chosenDescText (p : Page) : Option String :=
  match p.descDivs.find? (fun d =>
      match d.1 with
      | some cl => subIn "description" (strLower cl)
      | none => false) with
  | some d => some d.2
  | none =>
    (p.pStrings.find? (fun s =>
      match s with
      | some x => x ≠ "" && 50 < x.length
      | none => false)).bind id

/-- Model of `scrape_lddb_metadata` applied to a successfully fetched page:
builds the metadata record, or returns `none` when the cover-image fallback
raises (the function's `except` clause turns any exception into `None`).
Fetch failures are modelled at the orchestration level. -/
def scrape_lddb_metadata (lddb_url : String) (p : Page) : Option Metadata :=
  match coverScan p.imgs with
  | Except.error _ => none
  | Except.ok cov =>
    let md0 : Metadata := {
      title := extractTitle p.titleText p.h1Text
      year := findParenYear p.fullText.toList
      runtime := none
      format := "LaserDisc"
      genres := []
      coverUrl := cov.bind coverUrlOf
      director := none
      cast := (p.personAnchors.take 5).map pyStrip
      description := (chosenDescText p).map
        (fun t => ((stripList t.toList).take 500).asString)
      catalogNumber := none
      sourceUrl := lddb_url }
    some (p.dlPairs.foldl applyDlPair md0)

/-! ## Enricher: `enhance_with_tmdb` -/

/-- One entry of the TMDb search response's `results` list: its `id` and its
`release_date` field (`none` when the key is absent). -/
structure SearchResult where
  id : Nat
  releaseDate : Option String
deriving DecidableEq, Repr

/-- One entry of the detail response's `credits.crew` list. -/
structure CrewMember where
  name : String
  job : String
deriving DecidableEq, Repr

/-- The fields of the TMDb movie-details response the source reads
(absent JSON keys are `none` / empty lists). -/
structure Details where
  overview : Option String
  posterPath : Option String
  runtime : Option Nat
  genreNames : List String
  crew : List CrewMember
  castNames : List String
deriving DecidableEq, Repr

/-- The `enhanced` dict built by `enhance_with_tmdb` (lines 195-211).  The
keys `tmdbId`, `description`, `posterUrl`, `runtime` and `genres` are always
present (their values may be empty / `None`); `director` and `actors` are
present only conditionally, which `Option` records here. -/
structure Enhanced where
  tmdbId : Nat
  description : String
  posterUrl : Option String
  runtime : Option Nat
  genres : List String
  director : Option String
  actors : Option (List String)
deriving DecidableEq, Repr

/-- Python truthiness of the optional year (`if year:`): `None` and `0` are
falsy. -/
def yearTruthy : Option Nat → Bool
  | some y => y ≠ 0
  | none => false

/-- Python truthiness of an optional string (`if s:`). -/
def strTruthy : Option String → Bool
  | some s => s ≠ ""
  | none => false

/-- Python `a or b` on optional strings. -/
def pyOrStr (a b : Option String) : Option String :=
  if strTruthy a then a else b

/-- The year-match loop of lines 179-184: scan the results in order; a result
with a falsy `release_date` is skipped; otherwise `int(release_date[:4])` is
computed — raising (`Except.error`) when the prefix is not an integer — and
the first result with an exact year match is returned. -/
def scanYear (y : Nat) : List SearchResult → Except Unit (Option SearchResult)
  | [] => Except.ok none
  | r :: rest =>
    match r.releaseDate with
    | none => scanYear y rest
    | some d =>
      if d = "" then scanYear y rest
      else
        match pyIntList (d.toList.take 4) with
        | none => Except.error ()
        | some ry => if ry = (y : Int) then Except.ok (some r)
                     else scanYear y rest

/-- Best-match selection of lines 176-184: default to the first result; when
the supplied year is truthy and more than one result exists, prefer the first
exact year match (the scan may raise, which aborts the whole enrichment). -/
def findBestMatch : List SearchResult → Option Nat →
    Except Unit SearchResult
  | [], _ => Except.error ()
  | r0 :: rest, year =>
    match year with
    | some y =>
      if y ≠ 0 ∧ rest ≠ [] then
        match scanYear y (r0 :: rest) with
        | Except.error _ => Except.error ()
        | Except.ok (some r) => Except.ok r
        | Except.ok none => Except.ok r0
      else Except.ok r0
    | none => Except.ok r0

/-- Construction of the `enhanced` dict from the selected id and the detail
response (lines 195-211), including the Python truthiness checks on
`poster_path`, the director's name and the cast list. -/
def mkEnhanced (movieId : Nat) (d : Details) : Enhanced :=
  { tmdbId := movieId
    description := d.overview.getD ""
    posterUrl :=
      match d.posterPath with
      | some pp =>
        if pp ≠ "" then some ("https://image.tmdb.org/t/p/w500" ++ pp)
        else none
      | none => none
    runtime := d.runtime
    genres := d.genreNames
    director :=
      match d.crew.find? (fun c => c.job = "Director") with
      | some c => if c.name ≠ "" then some c.name else none
      | none => none
    actors :=
      match d.castNames with
      | [] => none
      | l => some (l.take 10) }

/-- The TMDb backend as seen by `enhance_with_tmdb`: the search call (title
and the year parameter, which is only appended when truthy) and the details
call. -/
structure TmdbApi where
  searchMovie : String → Option Nat → Except FetchErr (List SearchResult)
  movieDetails : Nat → Except FetchErr Details

/-- Model of `enhance_with_tmdb`: a falsy API key (either environment
variable), any failed request, an empty result list, or a raising best-match
scan all collapse to `none` ("no enrichment available"). -/
def enhance_with_tmdb (envKeys : Option String × Option String)
    (api : TmdbApi) (title : String) (year : Option Nat) : Option Enhanced :=
  let key := pyOrStr envKeys.1 envKeys.2
  if !strTruthy key then none
  else
    match api.searchMovie title (if yearTruthy year then year else none) with
    | Except.error _ => none
    | Except.ok results =>
      if results.isEmpty then none
      else
        match findBestMatch results year with
        | Except.error _ => none
        | Except.ok best =>
          match api.movieDetails best.id with
          | Except.error _ => none
          | Except.ok d => some (mkEnhanced best.id d)

/-! ## Orchestration: `lookup_catalog` -/

/-- The metadata dict after `metadata.update({...})` (lines 254-263): the
original keys remain and `posterUrl`, `tmdbId` and `actors` are added. -/
structure Merged where
  title : String
  year : Option Nat
  runtime : Option Nat
  format : String
  genres : List String
  coverUrl : Option String
  posterUrl : Option String
  director : Option String
  cast : List String
  actors : List String
  description : Option String
  tmdbId : Option Nat
  catalogNumber : Option String
  sourceUrl : String
deriving DecidableEq, Repr

/-- The merge of lines 254-263, modelling each `dict.get` exactly: the keys
`description`, `posterUrl`, `tmdbId`, `genres` and `runtime` are always
present in the `enhanced` dict, so their `get` defaults never apply;
`posterUrl` uses Python `or` against the extractor's cover; `director` and
`actors` fall back to the extractor's values only when the `enhanced` dict
lacks those keys. -/
def mergeMetadata (m : Metadata) (e : Enhanced) : Merged :=
  { title := m.title
    year := m.year
    format := m.format
    cast := m.cast
    coverUrl := m.coverUrl
    catalogNumber := m.catalogNumber
    sourceUrl := m.sourceUrl
    description := some e.description
    posterUrl :=
      match e.posterUrl with
      | some pu => if pu ≠ "" then some pu else m.coverUrl
      | none => m.coverUrl
    tmdbId := some e.tmdbId
    director :=
      match e.director with
      | some dr => some dr
      | none => m.director
    actors := e.actors.getD m.cast
    genres := e.genres
    runtime := e.runtime }

/-- The JSON request body of `POST /lookup/catalog`
(restricted to JSON objects whose `catalog_number`, when present, is a
string). -/
structure ReqBody where
  catalogNumber : Option String
deriving DecidableEq, Repr

/-- The JSON responses `lookup_catalog` can produce. -/
inductive Resp where
  /-- `{"error": msg}` -/
  | errJson (msg : String)
  /-- `{"status": "not_found", "message": msg}` -/
  | notFound (msg : String)
  /-- `{"status": "error", "message": msg}` -/
  | statusError (msg : String)
  /-- `{"status": "success", "data": md, "catalog_number": c}` without
  enrichment keys -/
  | successPlain (md : Metadata) (catalog : String)
  /-- `{"status": "success", "data": merged, "catalog_number": c}` after the
  merge -/
  | successMerged (md : Merged) (catalog : String)
deriving DecidableEq, Repr

/-- Record of the pipeline-stage calls the handler makes, in order, with
their arguments. -/
inductive StageCall where
  | searchStage (catalog : String)
  | scrapeStage (url : String)
  | enhanceStage (title : String) (year : Option Nat)
deriving DecidableEq, Repr

/-- Model of the `lookup_catalog` handler (lines 221-276), instrumented with
the list of pipeline-stage calls it performs.  The three stages are passed as
function arguments (their models above can be plugged in); the result is the
HTTP status code, the JSON response, and the stage-call trace. -/
def lookup_catalog (locator : String → Option String)
    (extractor : String → Option Metadata)
    (enricher : String → Option Nat → Option Enhanced)
    (body : ReqBody) : Nat × Resp × List StageCall :=
  let catalog := pyStrip (body.catalogNumber.getD "")
  if catalog = "" then (400, Resp.errJson "Missing catalog number", [])
  else
    match locator catalog with
    | none =>
      (200, Resp.notFound ("No LDDB results found for catalog number: "
        ++ catalog), [StageCall.searchStage catalog])
    | some url =>
      match extractor url with
      | none =>
        (200, Resp.statusError "Found LDDB page but could not extract metadata",
          [StageCall.searchStage catalog, StageCall.scrapeStage url])
      | some md =>
        if md.title ≠ "" && yearTruthy md.year then
          match enricher md.title md.year with
          | some e =>
            (200, Resp.successMerged (mergeMetadata md e) catalog,
              [StageCall.searchStage catalog, StageCall.scrapeStage url,
               StageCall.enhanceStage md.title md.year])
          | none =>
            (200, Resp.successPlain md catalog,
              [StageCall.searchStage catalog, StageCall.scrapeStage url,
               StageCall.enhanceStage md.title md.year])
        else
          (200, Resp.successPlain md catalog,
            [StageCall.searchStage catalog, StageCall.scrapeStage url])

/-! ## Spec-side definitions

Definitions in this section transcribe the *spec's / claims'* wording (not
the source), for comparison with the source-derived definitions above. -/

/-- Transcription of claim C5's wording for the per-anchor normalisation:
for a considered href beginning with `/url?q=`, "the percent-decoded
substring lying between that prefix and the first `&`"; the other two cases
as in the source. -/
def claimCleanHref (href : String) : Option String :=
  if subIn "lddb.com" href && subIn "/laserdisc/" href then
    if leadsWith "/url?q=".toList href.toList then
      some (pctDec (beforeFirst "&".toList (href.toList.drop 7))).asString
    else if leadsWith "https://www.lddb.com".toList href.toList then
      some href
    else none
  else none

/-- Transcription of claim C6's wording for the title-element branch: "the
title text with a trailing bracketed suffix and surrounding whitespace
stripped" — when the stripped title text ends with `]` and contains `[`, the
text before the last `[`, stripped; "when no bracket is present, the segment
of the title text before the first `\" - \"` separator, stripped". -/
def specTitleOfText (tt : String) : String :=
  let t := stripList tt.toList
  if t.contains '[' then
    match t.getLast?, (t.reverse.findIdx? (· = '[')).map
        (fun j => t.length - 1 - j) with
    | some ']', some k => (stripList (t.take k)).asString
    | _, _ => (stripList t).asString
  else (stripList (beforeFirst " - ".toList t)).asString

/-- The amended description of the title-element branch (claim C6 as
corrected): the segment of the stripped title text strictly before the first
`[` that is preceded by at least one character, stripped; else the segment
before the first `" - "`, stripped. -/
def amendedTitleOfText (tt : String) : String :=
  let t := stripList tt.toList
  match t with
  | [] => (stripList (beforeFirst " - ".toList t)).asString
  | c :: rest =>
    if rest.contains '[' then
      (stripList (c :: rest.takeWhile (· ≠ '['))).asString
    else (stripList (beforeFirst " - ".toList t)).asString

/-- Claim C4's notion of a search result's release year: the integer value of
the first four characters of a truthy `release_date`. -/
def resultYearOf (r : SearchResult) : Option Int :=
  match r.releaseDate with
  | none => none
  | some d => if d = "" then none else pyIntList (d.toList.take 4)

/-- Claim C4's selection rule: the first result whose release year equals the
supplied year, falling back to the first result. -/
def specBestMatch (r0 : SearchResult) (rest : List SearchResult) (y : Nat) :
    SearchResult :=
  (((r0 :: rest).find? (fun r => resultYearOf r = some (y : Int)))).getD r0

/-- The lower-cased stripped `dt` label paired with the stripped `dd` value,
for every `dt` that has a following `dd` sibling. -/
def dlEntries (prs : List (String × Option String)) : List (String × String) :=
  prs.filterMap (fun pr =>
    pr.2.map (fun v => (strLower (pyStrip pr.1), pyStrip v)))

/-- The stripped `dd` value of the last definition pair whose processed entry
satisfies `p` (claim C7's "first pair per label wins unless overwritten by a
later matching pair"). -/
def lastMatchVal (p : String × String → Bool)
    (prs : List (String × Option String)) : Option String :=
  ((dlEntries prs).reverse.find? p).map (fun e => e.2)

/-- Label keyword predicate for the director field. -/
def dirLabel (l : String) : Bool := subIn "director" l

/-- Label keyword predicate for the genres field. -/
def genreLabel (l : String) : Bool := subIn "genre" l || subIn "category" l

/-- Label keyword predicate for the runtime field. -/
def runLabel (l : String) : Bool := subIn "runtime" l || subIn "duration" l

/-- Label keyword predicate for the catalog-number field. -/
def catLabel (l : String) : Bool := subIn "catalog" l || subIn "number" l

/-- A definition-pair list matches claim C7's implicit domain when each label
matches at most one keyword group (real labels such as "Director:" or
"Runtime" do). -/
def exclusiveLabels (prs : List (String × Option String)) : Prop :=
  ∀ pr ∈ prs,
    (dirLabel (strLower (pyStrip pr.1)) →
      ¬ genreLabel (strLower (pyStrip pr.1)) ∧
      ¬ runLabel (strLower (pyStrip pr.1)) ∧
      ¬ catLabel (strLower (pyStrip pr.1))) ∧
    (genreLabel (strLower (pyStrip pr.1)) →
      ¬ runLabel (strLower (pyStrip pr.1)) ∧
      ¬ catLabel (strLower (pyStrip pr.1))) ∧
    (runLabel (strLower (pyStrip pr.1)) →
      ¬ catLabel (strLower (pyStrip pr.1)))

instance (prs : List (String × Option String)) :
    Decidable (exclusiveLabels prs) := by
  unfold exclusiveLabels
  infer_instance

/-- Well-formedness of a search result per the metadata API's contract: its
`release_date`, when present and non-empty, starts with a parseable integer
prefix. -/
def wfResult (r : SearchResult) : Prop :=
  match r.releaseDate with
  | some d => d = "" ∨ (pyIntList (d.toList.take 4)).isSome = true
  | none => True

instance (r : SearchResult) : Decidable (wfResult r) := by
  rw [wfResult]
  cases r.releaseDate with
  | none => exact inferInstanceAs (Decidable True)
  | some d => exact inferInstanceAs (Decidable (_ ∨ _))

/-! ## Concrete fixtures -/

/-- C1 failing input, extractor side: an LDDB record with a runtime. -/
def c1Meta : Metadata :=
  { title := "Blade Runner"
    year := some 1982
    runtime := some 117
    format := "LaserDisc"
    genres := ["Science Fiction"]
    coverUrl := some "https://www.lddb.com/covers/br.jpg"
    director := some "Ridley Scott"
    cast := ["Harrison Ford"]
    description := some "LDDB description"
    catalogNumber := some "PILF-1234"
    sourceUrl := "https://www.lddb.com/laserdisc/05683/PILF-1234" }

/-- C1 failing input, enrichment side: a TMDb detail response whose `runtime`
key is `null`/absent (`details.get('runtime')` is `None`). -/
def c1Details : Details :=
  { overview := some "TMDb overview"
    posterPath := some "/br.jpg"
    runtime := none
    genreNames := ["Drama"]
    crew := []
    castNames := [] }

/-- C5 counterexample anchor: a Google-redirect href in which the literal
substring `/url?q=` occurs a second time before the first `&`. -/
def c5Href : String := "/url?q=https://www.lddb.com/laserdisc/ab/url?q=cd&sa=U"

/-- C9 fixture: an `img` whose `src` mentions neither cover nor poster and
whose `width` attribute is not a decimal integer string. -/
def c9BadImg : Img := { src := some "/images/banner.gif", width := some "100%" }

/-- C9 fixture: a page that is fully extractable except that its only image
carries the non-integer width attribute. -/
def c9Page : Page :=
  { titleText := some "Jaws [LaserDisc]"
    h1Text := none
    fullText := "<html>Jaws (1975)</html>"
    imgs := [c9BadImg]
    dlPairs := [("Director:", some "Steven Spielberg")]
    personAnchors := []
    descDivs := []
    pStrings := [] }

/-- C9 fixture: the same page without the poisonous image. -/
def c9PageNoImg : Page := { c9Page with imgs := [] }

/-- C10 counterexample page: its title element's text strips to the empty
string, and a year is present. -/
def c10Page : Page :=
  { titleText := some "   "
    h1Text := none
    fullText := "Film (1995) page"
    imgs := []
    dlPairs := []
    personAnchors := []
    descDivs := []
    pStrings := [] }

/-- An enrichment record an enricher oracle could return (C10). -/
def c10Enh : Enhanced :=
  { tmdbId := 42
    description := "d"
    posterUrl := none
    runtime := some 90
    genres := []
    director := none
    actors := none }

/-- The metadata record the Extractor produces on `c10Page`. -/
def c10Md : Metadata :=
  { title := ""
    year := some 1995
    runtime := none
    format := "LaserDisc"
    genres := []
    coverUrl := none
    director := none
    cast := []
    description := none
    catalogNumber := none
    sourceUrl := "https://www.lddb.com/laserdisc/x" }

/-- C10 witness page: no title element and no `h1`, so the title stays at the
sentinel; a year is present. -/
def c10SentinelPage : Page :=
  { titleText := none
    h1Text := none
    fullText := "<td>(1975)</td>"
    imgs := []
    dlPairs := []
    personAnchors := []
    descDivs := []
    pStrings := [] }

/-- The metadata record the Extractor produces on `c10SentinelPage`. -/
def c10SentMd : Metadata :=
  { title := "Unknown Title"
    year := some 1975
    runtime := none
    format := "LaserDisc"
    genres := []
    coverUrl := none
    director := none
    cast := []
    description := none
    catalogNumber := none
    sourceUrl := "https://www.lddb.com/laserdisc/x" }

/-- C7 witness page: one definition pair per keyword group, plus a second
runtime pair that overwrites the first. -/
def c7Page : Page :=
  { titleText := none
    h1Text := none
    fullText := ""
    imgs := []
    dlPairs := [("Director", some " Steven Spielberg "),
                ("Genres", some "Horror, Thriller"),
                ("Runtime", some "120 minutes"),
                ("Catalog Number", some "PILF-25"),
                ("Runtime", some "~126 min")]
    personAnchors := []
    descDivs := []
    pStrings := [] }

/-- The metadata record the Extractor produces on `c7Page`. -/
def c7Md : Metadata :=
  { title := "Unknown Title"
    year := none
    runtime := some 126
    format := "LaserDisc"
    genres := ["Horror", "Thriller"]
    coverUrl := none
    director := some "Steven Spielberg"
    cast := []
    description := none
    catalogNumber := some "PILF-25"
    sourceUrl := "u" }

/-- C8 witness page: a description `div` whose text is 501 characters
long. -/
def c8Page : Page :=
  { titleText := none
    h1Text := none
    fullText := ""
    imgs := []
    dlPairs := []
    personAnchors := []
    descDivs := [(some "movie-description", (List.replicate 501 'a').asString)]
    pStrings := [] }

/-- The metadata record the Extractor produces on `c8Page`: the description
is truncated to exactly 500 characters. -/
def c8Md : Metadata :=
  { title := "Unknown Title"
    year := none
    runtime := none
    format := "LaserDisc"
    genres := []
    coverUrl := none
    director := none
    cast := []
    description := some ((List.replicate 500 'a').asString)
    catalogNumber := none
    sourceUrl := "u" }

/-! ## Supporting lemmas -/

theorem removeOccAux_nil (f : Nat) (old : List Char) :
    removeOccAux f old [] = [] := by
  cases f <;> rfl

theorem removeOccAux_fuel (old : List Char) :
    ∀ (f₁ : Nat) (l : List Char) (f₂ : Nat), l.length ≤ f₁ → l.length ≤ f₂ →
      removeOccAux f₁ old l = removeOccAux f₂ old l := by
  intro f₁
  induction f₁ with
  | zero =>
    intro l f₂ h₁ _
    have : l = [] := List.eq_nil_of_length_eq_zero (Nat.le_zero.mp h₁)
    subst this
    rw [removeOccAux_nil, removeOccAux_nil]
  | succ f ih =>
    intro l f₂ h₁ h₂
    match l, f₂ with
    | [], f₂ => rw [removeOccAux_nil, removeOccAux_nil]
    | c :: rest, 0 => simp at h₂
    | c :: rest, g + 1 =>
      show removeOccAux (f + 1) old (c :: rest)
        = removeOccAux (g + 1) old (c :: rest)
      rw [removeOccAux, removeOccAux]
      by_cases hcond : old ≠ [] ∧ leadsWith old (c :: rest)
      · rw [if_pos hcond, if_pos hcond]
        have hold : 1 ≤ old.length := by
          cases old with
          | nil => exact absurd rfl hcond.1
          | cons a as => simp
        have h₁x : rest.length + 1 ≤ f + 1 := by simpa using h₁
        have h₂x : rest.length + 1 ≤ g + 1 := by simpa using h₂
        apply ih
        · rw [List.length_drop]
          simp only [List.length_cons]
          omega
        · rw [List.length_drop]
          simp only [List.length_cons]
          omega
      · rw [if_neg hcond, if_neg hcond]
        have h₁x : rest.length ≤ f := by simp at h₁; omega
        have h₂x : rest.length ≤ g := by simp at h₂; omega
        rw [ih rest g h₁x h₂x]

theorem removeOccAux_of_not_contains (old : List Char) :
    ∀ (f : Nat) (l : List Char), containsL old l = false →
      removeOccAux f old l = l := by
  intro f
  induction f with
  | zero => intro l _; rfl
  | succ f ih =>
    intro l hnc
    match l with
    | [] => rfl
    | c :: rest =>
      rw [containsL] at hnc
      have hlead : leadsWith old (c :: rest) = false := by
        cases h : leadsWith old (c :: rest) <;> simp [h] at hnc ⊢
      have hrest : containsL old rest = false := by
        cases h : containsL old rest <;> simp [h] at hnc ⊢
      rw [removeOccAux, if_neg (by simp [hlead]), ih rest hrest]

theorem removeOcc_of_not_contains (old l : List Char)
    (h : containsL old l = false) : removeOcc old l = l :=
  removeOccAux_of_not_contains old l.length l h

theorem leadsWith_append (l x : List Char) : leadsWith l (l ++ x) = true := by
  induction l with
  | nil => rfl
  | cons c rest ih => simp [leadsWith, ih]

theorem removeOcc_append_self (old x : List Char) (h : old ≠ []) :
    removeOcc old (old ++ x) = removeOcc old x := by
  match old, h with
  | o :: os, _ =>
    show removeOccAux ((o :: os) ++ x).length (o :: os) ((o :: os) ++ x)
      = removeOcc (o :: os) x
    have hlen : ((o :: os) ++ x).length = (os.length + x.length) + 1 := by
      rw [List.length_append, List.length_cons]
      omega
    rw [hlen]
    show removeOccAux ((os.length + x.length) + 1) (o :: os) (o :: (os ++ x))
      = removeOcc (o :: os) x
    have hne : (o :: os : List Char) ≠ [] := by simp
    have hlw : leadsWith (o :: os) (o :: (os ++ x)) = true := by
      have h2 := leadsWith_append (o :: os) x
      rw [List.cons_append] at h2
      exact h2
    rw [removeOccAux, if_pos ⟨hne, hlw⟩]
    have hdrop : (o :: (os ++ x)).drop (o :: os).length = x := by
      have hd := List.drop_left (o :: os) x
      rw [List.cons_append] at hd
      exact hd
    rw [hdrop]
    exact removeOccAux_fuel (o :: os) (os.length + x.length) x x.length
      (by omega) (le_refl _)

theorem beforeFirst_append_of_not_mem (a : Char) (pat rest : List Char)
    (h : a ∉ pat) :
    beforeFirst [a] (pat ++ rest) = pat ++ beforeFirst [a] rest := by
  induction pat with
  | nil => rfl
  | cons c pat ih =>
    have hac : ¬ (a = c) := fun hh => h (by simp [hh])
    show beforeFirst [a] (c :: (pat ++ rest)) = c :: (pat ++ beforeFirst [a] rest)
    rw [beforeFirst, if_neg (by simp [leadsWith, hac]),
      ih (fun hm => h (by simp [hm]))]

theorem leadsWith_eq_append (pat l : List Char) (h : leadsWith pat l = true) :
    l = pat ++ l.drop pat.length := by
  induction pat generalizing l with
  | nil => simp
  | cons c pat ih =>
    match l with
    | [] => simp [leadsWith] at h
    | b :: bs =>
      rw [leadsWith, Bool.and_eq_true] at h
      have hcb : c = b := by simpa using h.1
      subst hcb
      have hx := ih bs h.2
      rw [List.length_cons, List.cons_append, List.drop_succ_cons, ← hx]

theorem dropWhile_append_of_all {p : Char → Bool} (u v : List Char)
    (h : ∀ x ∈ u, p x = true) :
    (u ++ v).dropWhile p = v.dropWhile p := by
  induction u with
  | nil => rfl
  | cons c u ih =>
    rw [List.cons_append, List.dropWhile_cons,
      if_pos (h c (by simp)), ih (fun x hx => h x (by simp [hx]))]

theorem dropWhile_eq_nil_of_all {p : Char → Bool} (u : List Char)
    (h : ∀ x ∈ u, p x = true) : u.dropWhile p = [] := by
  have := dropWhile_append_of_all u [] h
  simpa using this

theorem dropEndWs_append_ws (a w : List Char)
    (h : ∀ x ∈ w, pySpace x = true) : dropEndWs (a ++ w) = dropEndWs a := by
  rw [dropEndWs, dropEndWs, List.reverse_append,
    dropWhile_append_of_all w.reverse a.reverse
      (fun x hx => h x (List.mem_reverse.mp hx))]

theorem stripList_append_ws (a w : List Char)
    (h : ∀ x ∈ w, pySpace x = true) : stripList (a ++ w) = stripList a := by
  rw [stripList, stripList, List.dropWhile_append]
  by_cases he : (a.dropWhile pySpace).isEmpty
  · rw [if_pos he]
    have ha : a.dropWhile pySpace = [] := by
      cases hc : a.dropWhile pySpace with
      | nil => rfl
      | cons y ys => rw [hc] at he; simp [List.isEmpty] at he
    rw [ha, dropWhile_eq_nil_of_all w h]
  · rw [if_neg he, dropEndWs_append_ws _ w h]

theorem mem_stripList {x : Char} {l : List Char} (h : x ∈ stripList l) :
    x ∈ l := by
  rw [stripList, dropEndWs] at h
  have h1 : x ∈ (l.dropWhile pySpace).reverse.dropWhile pySpace :=
    List.mem_reverse.mp h
  have h2 : x ∈ (l.dropWhile pySpace).reverse :=
    (List.dropWhile_sublist pySpace).subset h1
  have h3 : x ∈ l.dropWhile pySpace := List.mem_reverse.mp h2
  exact (List.dropWhile_sublist pySpace).subset h3

theorem wsThen_mem_bracket (l : List Char) (h : wsThen l = true) :
    '[' ∈ l := by
  induction l with
  | nil => simp [wsThen] at h
  | cons c rest ih =>
    rw [wsThen] at h
    by_cases hc : c = '['
    · simp [hc]
    · rw [if_neg hc] at h
      by_cases hs : pySpace c
      · rw [if_pos hs] at h
        exact List.mem_cons_of_mem c (ih h)
      · rw [if_neg hs] at h
        exact absurd h (by simp)

theorem wsThen_of_not_bracket (l : List Char) (h : '[' ∉ l) :
    wsThen l = false := by
  cases hw : wsThen l with
  | false => rfl
  | true => exact absurd (wsThen_mem_bracket l hw) h

theorem wsThen_takeWhile_ws (l : List Char) (h : wsThen l = true) :
    ∀ x ∈ l.takeWhile (fun c => c ≠ '['), pySpace x = true := by
  induction l with
  | nil => simp [wsThen] at h
  | cons c rest ih =>
    rw [wsThen] at h
    by_cases hc : c = '['
    · intro x hx
      rw [List.takeWhile_cons, if_neg (by simp [hc])] at hx
      simp at hx
    · rw [if_neg hc] at h
      by_cases hs : pySpace c
      · rw [if_pos hs] at h
        intro x hx
        rw [List.takeWhile_cons, if_pos (by simp [hc])] at hx
        rcases List.mem_cons.mp hx with h1 | h2
        · rw [h1]; exact hs
        · exact ih h x h2
      · rw [if_neg hs] at h
        exact absurd h (by simp)

/-- The key characterisation of the lazy-regex title cut: for a newline-free
character list `c :: l`, the regex matches exactly when `l` contains an
opening bracket, and the captured group is the text before the first such
bracket up to trailing whitespace. -/
theorem bracketAux : ∀ (l : List Char), (∀ x ∈ l, x ≠ '\n') →
    ∀ c : Char, c ≠ '\n' →
      (if l.contains '[' then
        ∃ g w, reBracketGroup (c :: l) = some g ∧
          c :: l.takeWhile (fun ch => ch ≠ '[') = g ++ w ∧
          ∀ x ∈ w, pySpace x = true
      else reBracketGroup (c :: l) = none) := by
  intro l
  induction l with
  | nil =>
    intro _ c hc
    rw [if_neg (by simp)]
    rw [reBracketGroup, if_neg hc]
    rfl
  | cons d l₂ ih =>
    intro hnl c hc
    have hd : d ≠ '\n' := hnl d (by simp)
    have hnl₂ : ∀ x ∈ l₂, x ≠ '\n' := fun x hx => hnl x (by simp [hx])
    by_cases hw : wsThen (d :: l₂) = true
    · have hbr : (d :: l₂).contains '[' := by
        have := wsThen_mem_bracket (d :: l₂) hw
        simpa [List.contains] using this
      rw [if_pos hbr]
      refine ⟨[c], (d :: l₂).takeWhile (fun ch => ch ≠ '['), ?_, ?_, ?_⟩
      · rw [reBracketGroup, if_neg hc, if_pos hw]
      · rfl
      · exact wsThen_takeWhile_ws (d :: l₂) hw
    · have hwf : wsThen (d :: l₂) = false := by
        cases h : wsThen (d :: l₂) with
        | true => exact absurd h hw
        | false => rfl
      have hd_not : d ≠ '[' := by
        intro hdd
        rw [wsThen, if_pos hdd] at hwf
        exact absurd hwf (by simp)
      have hrw : reBracketGroup (c :: d :: l₂)
          = (reBracketGroup (d :: l₂)).map (c :: ·) := by
        rw [reBracketGroup, if_neg hc, hwf]
        simp
      by_cases hbr2 : l₂.contains '['
      · have hbr : (d :: l₂).contains '[' := by
          rw [List.contains_cons, hbr2]
          simp
        rw [if_pos hbr]
        have ihx := ih hnl₂ d hd
        rw [if_pos hbr2] at ihx
        obtain ⟨g, w, hg, heq, hww⟩ := ihx
        refine ⟨c :: g, w, ?_, ?_, hww⟩
        · rw [hrw, hg]; rfl
        · have htw : (d :: l₂).takeWhile (fun ch => ch ≠ '[')
              = d :: l₂.takeWhile (fun ch => ch ≠ '[') := by
            rw [List.takeWhile_cons, if_pos (by simp [hd_not])]
          rw [htw]
          rw [show c :: d :: l₂.takeWhile (fun ch => ch ≠ '[')
              = c :: (d :: l₂.takeWhile (fun ch => ch ≠ '[')) from rfl, heq]
          rfl
      · have hbr : ¬ ((d :: l₂).contains '[' = true) := by
          rw [List.contains_cons]
          simp only [Bool.or_eq_true, not_or]
          refine ⟨?_, hbr2⟩
          simp only [beq_iff_eq]
          exact fun hh => hd_not hh.symm
        rw [if_neg hbr]
        have ihx := ih hnl₂ d hd
        rw [if_neg (by simpa using hbr2)] at ihx
        rw [hrw, ihx]
        rfl

/-- On newline-free title texts, the source's regex-based title cut computes
exactly the "segment before the first bracket preceded by at least one
character" description. -/
theorem titleFromTitleText_eq_amended (tt : String)
    (h : ∀ x ∈ tt.toList, x ≠ '\n') :
    titleFromTitleText tt = amendedTitleOfText tt := by
  have hnt : ∀ x ∈ stripList tt.toList, x ≠ '\n' :=
    fun x hx => h x (mem_stripList hx)
  simp only [titleFromTitleText, amendedTitleOfText]
  cases hc : stripList tt.toList with
  | nil => rfl
  | cons c rest =>
    rw [hc] at hnt
    have hcne : c ≠ '\n' := hnt c (by simp)
    have hrest : ∀ x ∈ rest, x ≠ '\n' := fun x hx => hnt x (by simp [hx])
    have hbx := bracketAux rest hrest c hcne
    by_cases hbr : rest.contains '['
    · rw [if_pos hbr] at hbx
      obtain ⟨g, w, hg, heq, hww⟩ := hbx
      rw [hg]
      dsimp only
      rw [if_pos hbr, heq, stripList_append_ws g w hww]
    · rw [if_neg hbr] at hbx
      rw [hbx]
      dsimp only
      rw [if_neg hbr]

/-- The body of `applyDlPair` on a pair with a present `dd` value. -/
theorem applyDlPair_some (md : Metadata) (l v : String) :
    applyDlPair md (l, some v) =
      (if subIn "director" (strLower (pyStrip l)) then
        { md with director := some (pyStrip v) }
      else if subIn "genre" (strLower (pyStrip l))
          || subIn "category" (strLower (pyStrip l)) then
        { md with genres := (pySplit ',' (pyStrip v)).map pyStrip }
      else if subIn "runtime" (strLower (pyStrip l))
          || subIn "duration" (strLower (pyStrip l)) then
        match firstNat (pyStrip v).toList with
        | some n => { md with runtime := some n }
        | none => md
      else if subIn "catalog" (strLower (pyStrip l))
          || subIn "number" (strLower (pyStrip l)) then
        { md with catalogNumber := some (pyStrip v) }
      else md) := rfl

theorem applyDlPair_preserve (md : Metadata) (pr : String × Option String) :
    (applyDlPair md pr).title = md.title ∧
    (applyDlPair md pr).year = md.year ∧
    (applyDlPair md pr).format = md.format ∧
    (applyDlPair md pr).coverUrl = md.coverUrl ∧
    (applyDlPair md pr).cast = md.cast ∧
    (applyDlPair md pr).description = md.description ∧
    (applyDlPair md pr).sourceUrl = md.sourceUrl := by
  rcases pr with ⟨l, v⟩
  cases v with
  | none => exact ⟨rfl, rfl, rfl, rfl, rfl, rfl, rfl⟩
  | some dd =>
    rw [applyDlPair_some]
    repeat' split
    all_goals exact ⟨rfl, rfl, rfl, rfl, rfl, rfl, rfl⟩

theorem foldDl_description (prs : List (String × Option String))
    (md0 : Metadata) :
    (prs.foldl applyDlPair md0).description = md0.description := by
  induction prs generalizing md0 with
  | nil => rfl
  | cons pr prs ih =>
    rw [List.foldl_cons, ih]
    exact (applyDlPair_preserve md0 pr).2.2.2.2.2.1

theorem foldDl_title (prs : List (String × Option String)) (md0 : Metadata) :
    (prs.foldl applyDlPair md0).title = md0.title := by
  induction prs generalizing md0 with
  | nil => rfl
  | cons pr prs ih =>
    rw [List.foldl_cons, ih]
    exact (applyDlPair_preserve md0 pr).1

theorem foldDl_year (prs : List (String × Option String)) (md0 : Metadata) :
    (prs.foldl applyDlPair md0).year = md0.year := by
  induction prs generalizing md0 with
  | nil => rfl
  | cons pr prs ih =>
    rw [List.foldl_cons, ih]
    exact (applyDlPair_preserve md0 pr).2.1

theorem lastMatchVal_append_none (p : String × String → Bool)
    (prs : List (String × Option String)) (l : String) :
    lastMatchVal p (prs ++ [(l, none)]) = lastMatchVal p prs := by
  rw [lastMatchVal, lastMatchVal, dlEntries, dlEntries, List.filterMap_append]
  have hnil : List.filterMap
      (fun pr => Option.map (fun v => (strLower (pyStrip pr.1), pyStrip v)) pr.2)
      [(l, (none : Option String))] = [] := rfl
  rw [hnil, List.append_nil]

theorem lastMatchVal_append_some (p : String × String → Bool)
    (prs : List (String × Option String)) (l v : String) :
    lastMatchVal p (prs ++ [(l, some v)])
      = if p (strLower (pyStrip l), pyStrip v) then some (pyStrip v)
        else lastMatchVal p prs := by
  rw [lastMatchVal, lastMatchVal, dlEntries, dlEntries, List.filterMap_append,
    List.reverse_append, List.find?_append]
  have hsingle : List.filterMap
      (fun pr => pr.2.map (fun w => (strLower (pyStrip pr.1), pyStrip w)))
      [(l, some v)] = [(strLower (pyStrip l), pyStrip v)] := rfl
  rw [hsingle]
  by_cases hp : p (strLower (pyStrip l), pyStrip v)
  · rw [if_pos hp]
    simp [List.find?, hp]
  · rw [if_neg hp]
    simp [List.find?, hp]

/-- Characterisation of the `dt`/`dd` fold: when each label matches at most
one keyword group, each of the four structured fields holds the value of its
last matching pair (the runtime additionally requires the value to contain a
digit run), and is left at its initial value when no pair matches. -/
theorem foldDl_characterization (prs : List (String × Option String))
    (hex : exclusiveLabels prs) (md0 : Metadata) :
    (prs.foldl applyDlPair md0).director
      = (match lastMatchVal (fun e => dirLabel e.1) prs with
         | some v => some v
         | none => md0.director) ∧
    (prs.foldl applyDlPair md0).genres
      = (match lastMatchVal (fun e => genreLabel e.1) prs with
         | some v => (pySplit ',' v).map pyStrip
         | none => md0.genres) ∧
    (prs.foldl applyDlPair md0).runtime
      = (match lastMatchVal
           (fun e => runLabel e.1 && (firstNat e.2.toList).isSome) prs with
         | some v => firstNat v.toList
         | none => md0.runtime) ∧
    (prs.foldl applyDlPair md0).catalogNumber
      = (match lastMatchVal (fun e => catLabel e.1) prs with
         | some v => some v
         | none => md0.catalogNumber) := by
  induction prs using List.reverseRecOn with
  | nil => exact ⟨rfl, rfl, rfl, rfl⟩
  | append_singleton prs pr ih =>
    have hex2 : exclusiveLabels prs := by
      intro q hq
      exact hex q (by rw [List.mem_append]; exact Or.inl hq)
    obtain ⟨ihd, ihg, ihr, ihc⟩ := ih hex2
    rcases pr with ⟨l, v⟩
    rw [List.foldl_append, List.foldl_cons, List.foldl_nil]
    cases v with
    | none =>
      rw [lastMatchVal_append_none, lastMatchVal_append_none,
        lastMatchVal_append_none, lastMatchVal_append_none]
      exact ⟨ihd, ihg, ihr, ihc⟩
    | some v =>
      have hexpr := hex (l, some v)
        (by rw [List.mem_append]; exact Or.inr (by simp))
      dsimp only at hexpr
      obtain ⟨hx1, hx2, hx3⟩ := hexpr
      rw [applyDlPair_some,
        lastMatchVal_append_some, lastMatchVal_append_some,
        lastMatchVal_append_some, lastMatchVal_append_some]
      dsimp only
      by_cases hD : dirLabel (strLower (pyStrip l)) = true
      · have hngen : ¬ (genreLabel (strLower (pyStrip l)) = true) := (hx1 hD).1
        have hnrun : ¬ (runLabel (strLower (pyStrip l)) = true) := (hx1 hD).2.1
        have hncat : ¬ (catLabel (strLower (pyStrip l)) = true) := (hx1 hD).2.2
        have hnrunA : ¬ ((runLabel (strLower (pyStrip l))
            && (firstNat (pyStrip v).toList).isSome) = true) := by
          intro hcon
          rw [Bool.and_eq_true] at hcon
          exact hnrun hcon.1
        rw [if_pos (show subIn "director" (strLower (pyStrip l)) = true from hD),
          if_pos hD, if_neg hngen, if_neg hnrunA, if_neg hncat]
        exact ⟨rfl, ihg, ihr, ihc⟩
      · by_cases hG : genreLabel (strLower (pyStrip l)) = true
        · have hnrun : ¬ (runLabel (strLower (pyStrip l)) = true) := (hx2 hG).1
          have hncat : ¬ (catLabel (strLower (pyStrip l)) = true) := (hx2 hG).2
          have hnrunA : ¬ ((runLabel (strLower (pyStrip l))
              && (firstNat (pyStrip v).toList).isSome) = true) := by
            intro hcon
            rw [Bool.and_eq_true] at hcon
            exact hnrun hcon.1
          rw [if_neg (show ¬ (subIn "director" (strLower (pyStrip l)) = true)
              from hD),
            if_pos (show (subIn "genre" (strLower (pyStrip l))
              || subIn "category" (strLower (pyStrip l))) = true from hG),
            if_neg hD, if_pos hG, if_neg hnrunA, if_neg hncat]
          exact ⟨ihd, rfl, ihr, ihc⟩
        · by_cases hR : runLabel (strLower (pyStrip l)) = true
          · have hncat : ¬ (catLabel (strLower (pyStrip l)) = true) := hx3 hR
            rw [if_neg (show ¬ (subIn "director" (strLower (pyStrip l)) = true)
                from hD),
              if_neg (show ¬ ((subIn "genre" (strLower (pyStrip l))
                || subIn "category" (strLower (pyStrip l))) = true) from hG),
              if_pos (show (subIn "runtime" (strLower (pyStrip l))
                || subIn "duration" (strLower (pyStrip l))) = true from hR),
              if_neg hD, if_neg hG, if_neg hncat]
            cases hF : firstNat (pyStrip v).toList with
            | some n =>
              have hcond : (runLabel (strLower (pyStrip l))
                  && (some n : Option Nat).isSome) = true := by
                rw [hR]
                rfl
              rw [if_pos hcond]
              refine ⟨ihd, ihg, ?_, ihc⟩
              dsimp only
              rw [hF]
            | none =>
              have hcondn : ¬ ((runLabel (strLower (pyStrip l))
                  && (none : Option Nat).isSome) = true) := by
                simp
              rw [if_neg hcondn]
              exact ⟨ihd, ihg, ihr, ihc⟩
          · by_cases hC : catLabel (strLower (pyStrip l)) = true
            · have hnrunA : ¬ ((runLabel (strLower (pyStrip l))
                  && (firstNat (pyStrip v).toList).isSome) = true) := by
                intro hcon
                rw [Bool.and_eq_true] at hcon
                exact hR hcon.1
              rw [if_neg (show ¬ (subIn "director" (strLower (pyStrip l))
                  = true) from hD),
                if_neg (show ¬ ((subIn "genre" (strLower (pyStrip l))
                  || subIn "category" (strLower (pyStrip l))) = true) from hG),
                if_neg (show ¬ ((subIn "runtime" (strLower (pyStrip l))
                  || subIn "duration" (strLower (pyStrip l))) = true) from hR),
                if_pos (show (subIn "catalog" (strLower (pyStrip l))
                  || subIn "number" (strLower (pyStrip l))) = true from hC),
                if_neg hD, if_neg hG, if_neg hnrunA, if_pos hC]
              exact ⟨ihd, ihg, ihr, rfl⟩
            · have hnrunA : ¬ ((runLabel (strLower (pyStrip l))
                  && (firstNat (pyStrip v).toList).isSome) = true) := by
                intro hcon
                rw [Bool.and_eq_true] at hcon
                exact hR hcon.1
              rw [if_neg (show ¬ (subIn "director" (strLower (pyStrip l))
                  = true) from hD),
                if_neg (show ¬ ((subIn "genre" (strLower (pyStrip l))
                  || subIn "category" (strLower (pyStrip l))) = true) from hG),
                if_neg (show ¬ ((subIn "runtime" (strLower (pyStrip l))
                  || subIn "duration" (strLower (pyStrip l))) = true) from hR),
                if_neg (show ¬ ((subIn "catalog" (strLower (pyStrip l))
                  || subIn "number" (strLower (pyStrip l))) = true) from hC),
                if_neg hD, if_neg hG, if_neg hnrunA, if_neg hC]
              exact ⟨ihd, ihg, ihr, ihc⟩

/-- On well-formed results the year-match scan never raises and agrees with
`find?` over the claim's release-year notion. -/
theorem scanYear_eq_find (y : Nat) (l : List SearchResult)
    (hwf : ∀ r ∈ l, wfResult r) :
    scanYear y l
      = Except.ok (l.find? (fun r => resultYearOf r = some (y : Int))) := by
  induction l with
  | nil => rfl
  | cons r rest ih =>
    have hr := hwf r (by simp)
    have hrest : ∀ q ∈ rest, wfResult q := fun q hq => hwf q (by simp [hq])
    rw [wfResult] at hr
    rw [scanYear, List.find?_cons]
    cases hrd : r.releaseDate with
    | none =>
      have hpv : resultYearOf r = none := by simp [resultYearOf, hrd]
      have hdec : (decide ((none : Option Int) = some (y : Int))) = false := by
        simp
      rw [hpv, hdec]
      dsimp only
      exact ih hrest
    | some d =>
      rw [hrd] at hr
      dsimp only
      by_cases hde : d = ""
      · have hpv : resultYearOf r = none := by
          simp [resultYearOf, hrd, hde]
        have hdec : (decide ((none : Option Int) = some (y : Int))) = false := by
          simp
        rw [hpv, hdec, if_pos hde]
        dsimp only
        exact ih hrest
      · have hsome : (pyIntList (d.toList.take 4)).isSome = true := by
          rcases hr with h1 | h2
          · exact absurd h1 hde
          · exact h2
        obtain ⟨ry, hry⟩ := Option.isSome_iff_exists.mp hsome
        have hpv : resultYearOf r = some ry := by
          simp [resultYearOf, hrd, hde]
          exact hry
        rw [hpv, if_neg hde, hry]
        dsimp only
        by_cases hy : ry = (y : Int)
        · have hdec : (decide ((some ry : Option Int) = some (y : Int)))
              = true := by simp [hy]
          rw [if_pos hy, hdec]
        · have hdec : (decide ((some ry : Option Int) = some (y : Int)))
              = false := by simp [hy]
          rw [if_neg hy, hdec]
          dsimp only
          exact ih hrest

/-! ## Claim theorems -/

/-- Claim C1 (code bug): the merge rule is supposed to overwrite each field
only when the enrichment record supplies a value, retaining the extractor's
value otherwise — but the `enhanced` dict always contains a `runtime` key
(possibly `None`), so `enhanced_metadata.get('runtime',
metadata.get('runtime'))` never falls back.  Merging an extractor record with
runtime 117 against an enrichment built from a detail response without a
runtime stores `None`, discarding the 117. -/
theorem C1_merge_runtime_dropped :
    c1Meta.runtime = some 117 ∧
    (mkEnhanced 603 c1Details).runtime = none ∧
    (mergeMetadata c1Meta (mkEnhanced 603 c1Details)).runtime = none :=
  ⟨rfl, rfl, rfl⟩

/-- Claim C2: a request body whose `catalog_number` is missing or strips to
the empty string yields HTTP 400 with an error-JSON response, and no
pipeline stage is invoked, whatever the three stages would compute. -/
theorem C2_missing_catalog_number
    (locator : String → Option String) (extractor : String → Option Metadata)
    (enricher : String → Option Nat → Option Enhanced) (body : ReqBody)
    (h : body.catalogNumber = none ∨
      ∃ s, body.catalogNumber = some s ∧ pyStrip s = "") :
    lookup_catalog locator extractor enricher body
      = (400, Resp.errJson "Missing catalog number", []) := by
  simp only [lookup_catalog]
  rcases h with h | ⟨s, hs, hstrip⟩
  · rw [h]
    have hc : pyStrip ((none : Option String).getD "") = "" := rfl
    rw [if_pos hc]
  · rw [hs]
    have hc : pyStrip ((some s).getD "") = "" := hstrip
    rw [if_pos hc]

/-- Witness for C2 at a whitespace-only catalog number. -/
theorem C2_witness :
    lookup_catalog (fun _ => none) (fun _ => none) (fun _ _ => none)
      (ReqBody.mk (some "   "))
      = (400, Resp.errJson "Missing catalog number", []) :=
  C2_missing_catalog_number _ _ _ _ (Or.inr ⟨"   ", rfl, rfl⟩)

/-- Claim C3: the Locator maps every fetch failure, whatever its cause, and
every result page with no matching anchor to the same `none` ("not found"),
and the endpoint then answers HTTP 200 with a `not_found` status payload. -/
theorem C3_locator_failures_uniform :
    (∀ e : FetchErr, search_lddb_catalog_number (Except.error e) = none) ∧
    (∀ hrefs : List String, (∀ h ∈ hrefs, cleanHref h = none) →
      search_lddb_catalog_number (Except.ok hrefs) = none) ∧
    (∀ (locator : String → Option String)
       (extractor : String → Option Metadata)
       (enricher : String → Option Nat → Option Enhanced)
       (body : ReqBody) (cat : String),
      pyStrip (body.catalogNumber.getD "") = cat → cat ≠ "" →
      locator cat = none →
      lookup_catalog locator extractor enricher body
        = (200, Resp.notFound
            ("No LDDB results found for catalog number: " ++ cat),
           [StageCall.searchStage cat])) := by
  have hfirst : ∀ l : List String, (∀ h ∈ l, cleanHref h = none) →
      firstHit l = none := by
    intro l
    induction l with
    | nil => intro _; rfl
    | cons hh tt ih =>
      intro hall
      rw [firstHit, hall hh (by simp)]
      exact ih (fun x hx => hall x (by simp [hx]))
  refine ⟨fun e => rfl, ?_, ?_⟩
  · intro hrefs hall
    exact hfirst hrefs hall
  · intro locator extractor enricher body cat hcat hne hloc
    simp only [lookup_catalog]
    rw [hcat, if_neg hne, hloc]

/-- Witness for C3: a network failure, a page with no matching anchor, and a
full not-found request. -/
theorem C3_witness :
    search_lddb_catalog_number (Except.error FetchErr.network) = none ∧
    search_lddb_catalog_number
      (Except.ok ["https://example.com/", "/url?x=1"]) = none ∧
    lookup_catalog (fun _ => none) (fun _ => none) (fun _ _ => none)
      (ReqBody.mk (some " PILF-1234 "))
      = (200, Resp.notFound
          "No LDDB results found for catalog number: PILF-1234",
         [StageCall.searchStage "PILF-1234"]) := by
  refine ⟨C3_locator_failures_uniform.1 FetchErr.network,
    C3_locator_failures_uniform.2.1 _ (by decide), ?_⟩
  exact C3_locator_failures_uniform.2.2 (fun _ => none) (fun _ => none)
    (fun _ _ => none) (ReqBody.mk (some " PILF-1234 ")) "PILF-1234" rfl
    (by decide) rfl

/-- Claim C9: a successfully fetched page with no cover/poster image and an
image whose `width` attribute is not a decimal integer makes the width
fallback's `int(x)` raise, so the whole extraction is abandoned and every
already-extractable field is discarded; the same page without that image
extracts normally. -/
theorem C9_cover_fallback_abort :
    scrape_lddb_metadata "u" c9Page = none ∧
    scrape_lddb_metadata "u" c9PageNoImg
      = some { title := "Jaws", year := some 1975, runtime := none,
               format := "LaserDisc", genres := [], coverUrl := none,
               director := some "Steven Spielberg", cast := [],
               description := none, catalogNumber := none,
               sourceUrl := "u" } :=
  ⟨rfl, rfl⟩

/-- Claim C10 counterexample: a page whose title element's text strips to the
empty string overwrites the sentinel with `""`, so the "has both title and
year" guard fails even though a year was extracted, and the Enricher is not
invoked. -/
theorem C10_counterexample :
    lookup_catalog (fun _ => some "https://www.lddb.com/laserdisc/x")
        (fun u => scrape_lddb_metadata u c10Page) (fun _ _ => some c10Enh)
        (ReqBody.mk (some "PILF-1234"))
      = (200, Resp.successPlain c10Md "PILF-1234",
         [StageCall.searchStage "PILF-1234",
          StageCall.scrapeStage "https://www.lddb.com/laserdisc/x"]) ∧
    c10Md.year = some 1995 ∧ c10Md.title = "" :=
  ⟨rfl, rfl, rfl⟩

/-- Claim C10 as amended: the guard requires a truthy (non-empty) title and a
truthy (nonzero) year; whenever extraction succeeds with a non-empty title —
the sentinel included — and a nonzero year, the Enricher is invoked with that
title and year. -/
theorem C10_enricher_guard (locator : String → Option String)
    (extractor : String → Option Metadata)
    (enricher : String → Option Nat → Option Enhanced)
    (body : ReqBody) (cat url : String) (md : Metadata) (y : Nat)
    (hcat : pyStrip (body.catalogNumber.getD "") = cat) (hcne : cat ≠ "")
    (hloc : locator cat = some url) (hext : extractor url = some md)
    (htitle : md.title ≠ "") (hyear : md.year = some y) (hy0 : y ≠ 0) :
    StageCall.enhanceStage md.title md.year
      ∈ (lookup_catalog locator extractor enricher body).2.2 := by
  simp only [lookup_catalog]
  rw [hcat, if_neg hcne, hloc]
  dsimp only
  rw [hext]
  dsimp only
  have hcond : (decide (md.title ≠ "") && yearTruthy md.year) = true := by
    rw [hyear]
    simp [htitle, yearTruthy, hy0]
  rw [if_pos hcond]
  cases henr : enricher md.title md.year with
  | some e => simp
  | none => simp

/-- Witness for the amended C10: on a page with no title element the sentinel
itself is passed to the Enricher. -/
theorem C10_enricher_guard_witness :
    StageCall.enhanceStage "Unknown Title" (some 1975)
      ∈ (lookup_catalog (fun _ => some "https://www.lddb.com/laserdisc/x")
          (fun u => scrape_lddb_metadata u c10SentinelPage)
          (fun _ _ => none) (ReqBody.mk (some "PILF-1234"))).2.2 := by
  have h := C10_enricher_guard
    (fun _ => some "https://www.lddb.com/laserdisc/x")
    (fun u => scrape_lddb_metadata u c10SentinelPage) (fun _ _ => none)
    (ReqBody.mk (some "PILF-1234")) "PILF-1234"
    "https://www.lddb.com/laserdisc/x" c10SentMd 1975 rfl (by decide) rfl
    rfl (by decide) rfl (by decide)
  exact h

/-- Claim C4: for API-well-formed results (release-date prefixes parse) and a
truthy supplied year, the Enricher selects the first result whose release
year equals the year, falling back to the first result when none matches —
and with no year supplied (or a single result, where the fallback and the
first result coincide) it selects the first result. -/
theorem C4_best_match (r0 : SearchResult) (rest : List SearchResult) (y : Nat)
    (hwf : ∀ r ∈ r0 :: rest, wfResult r) (hy : y ≠ 0) :
    findBestMatch (r0 :: rest) (some y) = Except.ok (specBestMatch r0 rest y) ∧
    findBestMatch (r0 :: rest) none = Except.ok r0 := by
  constructor
  · rw [findBestMatch]
    cases rest with
    | nil =>
      have hc : ¬ (y ≠ 0 ∧ ([] : List SearchResult) ≠ []) := by
        intro hcon
        exact hcon.2 rfl
      rw [if_neg hc, specBestMatch]
      by_cases hb : resultYearOf r0 = some (y : Int)
      · simp [List.find?, hb]
      · simp [List.find?, hb]
    | cons r1 rs =>
      have hc : (y ≠ 0 ∧ (r1 :: rs : List SearchResult) ≠ []) :=
        ⟨hy, by simp⟩
      rw [if_pos hc, scanYear_eq_find y (r0 :: r1 :: rs) hwf, specBestMatch]
      cases hfind : (r0 :: r1 :: rs).find?
          (fun r => resultYearOf r = some (y : Int)) with
      | some r => rfl
      | none => rfl
  · rfl

/-- Witness for C4: the spec's 1990/1995 example selects the 1995 result. -/
theorem C4_witness :
    findBestMatch [SearchResult.mk 1 (some "1990-01-01"),
        SearchResult.mk 2 (some "1995-06-15")] (some 1995)
      = Except.ok (SearchResult.mk 2 (some "1995-06-15")) := by
  have h := (C4_best_match (SearchResult.mk 1 (some "1990-01-01"))
    [SearchResult.mk 2 (some "1995-06-15")] 1995 (by decide) (by decide)).1
  rw [h]
  rfl

/-- Claim C5 counterexample: the redirect unwrapping removes every occurrence
of `/url?q=` (Python `str.replace`), not just the leading prefix, so an
anchor containing the substring twice yields a different URL than "the
percent-decoded substring between the prefix and the first `&`". -/
theorem C5_counterexample :
    search_lddb_catalog_number (Except.ok [c5Href])
      = some "https://www.lddb.com/laserdisc/abcd" ∧
    claimCleanHref c5Href = some "https://www.lddb.com/laserdisc/ab/url?q=cd" ∧
    ("https://www.lddb.com/laserdisc/abcd" : String)
      ≠ "https://www.lddb.com/laserdisc/ab/url?q=cd" :=
  ⟨rfl, rfl, by decide⟩

/-- Claim C5 as amended: a considered redirect-wrapper href is cut at the
first `&` and has every occurrence of the literal `/url?q=` deleted before
percent-decoding — which coincides with the claim's "substring between the
prefix and the first `&`" whenever `/url?q=` occurs only as the leading
prefix. -/
theorem C5_redirect_unwrap (href : String)
    (hcond : (subIn "lddb.com" href && subIn "/laserdisc/" href) = true)
    (hlead : leadsWith "/url?q=".toList href.toList = true) :
    cleanHref href = some (pctDec (removeOcc "/url?q=".toList
        (beforeFirst "&".toList href.toList))).asString ∧
    (containsL "/url?q=".toList
        (beforeFirst "&".toList (href.toList.drop 7)) = false →
      cleanHref href = claimCleanHref href) := by
  constructor
  · rw [cleanHref, if_pos hcond, if_pos hlead]
  · intro hnc
    rw [cleanHref, claimCleanHref, if_pos hcond, if_pos hcond,
      if_pos hlead, if_pos hlead]
    have hsplit : href.toList = "/url?q=".toList ++ href.toList.drop 7 :=
      leadsWith_eq_append "/url?q=".toList href.toList hlead
    have h1 : beforeFirst "&".toList href.toList
        = "/url?q=".toList ++ beforeFirst "&".toList (href.toList.drop 7) := by
      conv_lhs => rw [hsplit]
      exact beforeFirst_append_of_not_mem '&' "/url?q=".toList
        (href.toList.drop 7) (by decide)
    rw [h1, removeOcc_append_self "/url?q=".toList _ (by decide),
      removeOcc_of_not_contains "/url?q=".toList _ hnc]

/-- Witness for the amended C5: a typical single-prefix redirect href, with a
percent-encoded colon, unwraps to the claimed URL. -/
theorem C5_redirect_unwrap_witness :
    cleanHref "/url?q=https%3A//www.lddb.com/laserdisc/0001/x&sa=U"
      = claimCleanHref "/url?q=https%3A//www.lddb.com/laserdisc/0001/x&sa=U" ∧
    cleanHref "/url?q=https%3A//www.lddb.com/laserdisc/0001/x&sa=U"
      = some "https://www.lddb.com/laserdisc/0001/x" := by
  refine ⟨(C5_redirect_unwrap
    "/url?q=https%3A//www.lddb.com/laserdisc/0001/x&sa=U"
    (by decide) (by decide)).2 (by decide), rfl⟩

/-- Claim C6 counterexample: the title regex cuts at the *first* opening
bracket, so a title text with two bracketed groups loses everything from the
first bracket on, where the claim's "trailing bracketed suffix stripped"
retains the earlier group. -/
theorem C6_counterexample :
    extractTitle (some "A [B] [C]") none = "A" ∧
    specTitleOfText "A [B] [C]" = "A [B]" ∧
    ("A" : String) ≠ "A [B]" :=
  ⟨rfl, rfl, by decide⟩

/-- Claim C6 as amended: on newline-free title texts the extracted title is
the segment of the stripped title text strictly before the first `[` that is
preceded by at least one character (stripped); with no such bracket, the
segment before the first `" - "` (stripped); and when the result still
equals the sentinel, the stripped `h1` text is used. -/
theorem C6_title_extraction (tt : String)
    (hnl : ∀ x ∈ tt.toList, x ≠ '\n') :
    titleFromTitleText tt = amendedTitleOfText tt ∧
    ∀ h1 : Option String,
      extractTitle (some tt) h1
        = (match h1 with
           | some h => if amendedTitleOfText tt = "Unknown Title"
               then pyStrip h else amendedTitleOfText tt
           | none => amendedTitleOfText tt) := by
  have heq := titleFromTitleText_eq_amended tt hnl
  refine ⟨heq, ?_⟩
  intro h1
  cases h1 with
  | none => exact heq
  | some hh =>
    show (if titleFromTitleText tt = "Unknown Title" then pyStrip hh
          else titleFromTitleText tt)
      = (if amendedTitleOfText tt = "Unknown Title" then pyStrip hh
         else amendedTitleOfText tt)
    rw [heq]

/-- Witness for the amended C6: a bracketed suffix with a following dash
segment is cut before the bracket. -/
theorem C6_title_extraction_witness :
    extractTitle (some "Jaws [LaserDisc] - LDDB") none = "Jaws" ∧
    amendedTitleOfText "Jaws [LaserDisc] - LDDB" = "Jaws" := by
  have h := (C6_title_extraction "Jaws [LaserDisc] - LDDB" (by decide)).2 none
  rw [h]
  exact ⟨rfl, rfl⟩

/-- Claim C7: on a page whose labels each match at most one keyword group,
the extracted director, genres, runtime and catalog number come from the
last definition pair whose lower-cased term contains the respective keyword
(`director`; `genre`/`category`, comma-split and stripped; `runtime`/
`duration`, first embedded integer, skipping digitless values;
`catalog`/`number`), and are absent/empty when no pair matches. -/
theorem C7_dl_pairs (url : String) (p : Page) (md : Metadata)
    (hex : exclusiveLabels p.dlPairs)
    (hscrape : scrape_lddb_metadata url p = some md) :
    md.director = lastMatchVal (fun e => dirLabel e.1) p.dlPairs ∧
    md.genres = (match lastMatchVal (fun e => genreLabel e.1) p.dlPairs with
                 | some v => (pySplit ',' v).map pyStrip
                 | none => []) ∧
    md.runtime = (lastMatchVal
        (fun e => runLabel e.1 && (firstNat e.2.toList).isSome)
        p.dlPairs).bind (fun v => firstNat v.toList) ∧
    md.catalogNumber = lastMatchVal (fun e => catLabel e.1) p.dlPairs := by
  rw [scrape_lddb_metadata] at hscrape
  cases hcov : coverScan p.imgs with
  | error e => rw [hcov] at hscrape; exact absurd hscrape (by simp)
  | ok cov =>
    rw [hcov] at hscrape
    dsimp only at hscrape
    have hmd := (Option.some.injEq _ _).mp hscrape
    obtain ⟨hd, hg, hr, hc⟩ := foldDl_characterization p.dlPairs hex
      { title := extractTitle p.titleText p.h1Text
        year := findParenYear p.fullText.toList
        runtime := none
        format := "LaserDisc"
        genres := []
        coverUrl := cov.bind coverUrlOf
        director := none
        cast := (p.personAnchors.take 5).map pyStrip
        description := (chosenDescText p).map
          (fun t => ((stripList t.toList).take 500).asString)
        catalogNumber := none
        sourceUrl := url }
    rw [hmd] at hd hg hr hc
    refine ⟨?_, ?_, ?_, ?_⟩
    · rw [hd]
      cases lastMatchVal (fun e => dirLabel e.1) p.dlPairs <;> rfl
    · rw [hg]
    · rw [hr]
      cases lastMatchVal
        (fun e => runLabel e.1 && (firstNat e.2.toList).isSome) p.dlPairs
        <;> rfl
    · rw [hc]
      cases lastMatchVal (fun e => catLabel e.1) p.dlPairs <;> rfl

/-- Witness for C7: one pair per keyword group; the value "120 minutes"
yields runtime 120, and a later runtime pair overwrites it. -/
theorem C7_witness :
    exclusiveLabels c7Page.dlPairs ∧
    scrape_lddb_metadata "u" c7Page = some c7Md ∧
    c7Md.director = lastMatchVal (fun e => dirLabel e.1) c7Page.dlPairs ∧
    (List.foldl applyDlPair c7Md [("Runtime", some "120 minutes")]).runtime
      = some 120 ∧
    c7Md.runtime = some 126 := by
  have hex : exclusiveLabels c7Page.dlPairs := by decide
  have hsc : scrape_lddb_metadata "u" c7Page = some c7Md := by decide
  have h := C7_dl_pairs "u" c7Page c7Md hex hsc
  exact ⟨hex, hsc, h.1, rfl, rfl⟩

/-- Claim C8: the extracted description, when present, is the chosen
element's stripped text truncated to 500 characters: it never exceeds 500
characters, and equals exactly 500 characters whenever the stripped text is
longer. -/
theorem C8_description_truncation (url : String) (p : Page) (md : Metadata)
    (hscrape : scrape_lddb_metadata url p = some md) :
    md.description = (chosenDescText p).map
        (fun t => ((stripList t.toList).take 500).asString) ∧
    (∀ s, md.description = some s → s.length ≤ 500) ∧
    (∀ t, chosenDescText p = some t → 500 < (pyStrip t).length →
      ∀ s, md.description = some s → s.length = 500) := by
  rw [scrape_lddb_metadata] at hscrape
  cases hcov : coverScan p.imgs with
  | error e => rw [hcov] at hscrape; exact absurd hscrape (by simp)
  | ok cov =>
    rw [hcov] at hscrape
    dsimp only at hscrape
    have hmd := (Option.some.injEq _ _).mp hscrape
    have hdesc : md.description = (chosenDescText p).map
        (fun t => ((stripList t.toList).take 500).asString) := by
      rw [← hmd, foldDl_description]
    refine ⟨hdesc, ?_, ?_⟩
    · intro s hs
      rw [hdesc] at hs
      cases hch : chosenDescText p with
      | none => rw [hch] at hs; exact absurd hs (by simp)
      | some t =>
        rw [hch] at hs
        have hseq : s = ((stripList t.toList).take 500).asString := by
          simpa using hs.symm
        rw [hseq, List.length_asString, List.length_take]
        omega
    · intro t hch hlong s hs
      rw [hdesc, hch] at hs
      have hseq : s = ((stripList t.toList).take 500).asString := by
        simpa using hs.symm
      have hstl : (pyStrip t).length = (stripList t.toList).length := by
        rw [pyStrip, List.length_asString]
      rw [hstl] at hlong
      rw [hseq, List.length_asString, List.length_take]
      omega

set_option maxRecDepth 40000 in
/-- Witness for C8: a 501-character description is stored as exactly the
first 500 characters. -/
theorem C8_witness :
    scrape_lddb_metadata "u" c8Page = some c8Md ∧
    c8Md.description = some ((List.replicate 500 'a').asString) ∧
    ((List.replicate 500 'a').asString).length = 500 := by
  have hsc : scrape_lddb_metadata "u" c8Page = some c8Md := by decide
  have h := C8_description_truncation "u" c8Page c8Md hsc
  have hdesc : c8Md.description = some ((List.replicate 500 'a').asString) :=
    rfl
  have hlen := h.2.2 ((List.replicate 501 'a').asString) rfl
    (by rw [show pyStrip ((List.replicate 501 'a').asString)
          = (List.replicate 501 'a').asString from rfl,
        List.length_asString, List.length_replicate]
        omega)
    ((List.replicate 500 'a').asString) hdesc
  exact ⟨hsc, hdesc, hlen⟩

end Yourflix
